import Mathlib

/-!
# GroveDB core — shallow embedding and verification

This file embeds, in Lean 4, the parts of the GroveDB sources needed to
settle a list of claims about the system: the Merk `TreeFeatureType`
encoding (`merk/src/merk/tree_feature_type.rs`), the subtree-path library
(`path/src/lib.rs`), the chunk-proof machinery
(`merk/src/proofs/chunk.rs`), and the GroveDB get/delete operations
(`grovedb/src/operations/get/mod.rs`, `grovedb/src/operations/delete.rs`).

Machine integers are modelled as `Nat` with explicit `% 2^w` where
overflow matters.  Fallible operations return `Except`.  Definitions
whose Rust source is not part of the verified tree are modelled from the
specification and are marked `Modelled from the spec:` in their doc
comments.
-/

namespace GroveDB

/-- Byte strings are lists of naturals; every byte is `< 256` whenever it
comes out of an encoder. -/
abbrev Bytes := List Nat

/-! ## Merk `TreeFeatureType` (`merk/src/merk/tree_feature_type.rs`) -/

/-- Errors of the `ed` encoding library as used by the feature-type
codec: `unexpectedByte b` mirrors `ed::Error::UnexpectedByte(b)`;
`unexpectedEof` stands for a failed byte read on a too-short input. -/
inductive EdError where
  | unexpectedByte (b : Nat)
  | unexpectedEof
deriving DecidableEq, Repr

/-- `TreeFeatureType` from `tree_feature_type.rs`: `BasicMerk` or
`SummedMerk(u64)`.  The `u64` accumulator is a `Nat` kept below `2^64`. -/
inductive TreeFeatureType where
  | basicMerk
  | summedMerk (sum : Nat)
deriving DecidableEq, Repr

/-- Well-formedness of a feature value as a Rust value: a `u64` field is
below `2^64`. -/
def TreeFeatureType.wfB : TreeFeatureType → Bool
  | .basicMerk => true
  | .summedMerk s => s < 2 ^ 64

/-- Big-endian bytes of `n` as a `u64` (`u64::to_be_bytes`). -/
def u64BeBytes (n : Nat) : List Nat :=
  [n / 2 ^ 56 % 256, n / 2 ^ 48 % 256, n / 2 ^ 40 % 256, n / 2 ^ 32 % 256,
   n / 2 ^ 24 % 256, n / 2 ^ 16 % 256, n / 2 ^ 8 % 256, n % 256]

/-- Big-endian recomposition of a byte list (`ReadBytesExt::read_u64::<BigEndian>`). -/
def u64FromBeBytes (l : List Nat) : Nat :=
  l.foldl (fun a b => a * 256 + b) 0

/-- `Encode::encode_into` for `TreeFeatureType`: tag byte `0` for
`BasicMerk`; tag byte `1` followed by the eight big-endian sum bytes for
`SummedMerk`. -/
def TreeFeatureType.encode : TreeFeatureType → List Nat
  | .basicMerk => [0]
  | .summedMerk s => 1 :: u64BeBytes s

/-- `Encode::encoding_length` for `TreeFeatureType`. -/
def TreeFeatureType.encodingLength : TreeFeatureType → Nat
  | .basicMerk => 1
  | .summedMerk _ => 9

/-- `Decode::decode` for `TreeFeatureType`: reads the tag byte, then for
tag `1` eight big-endian bytes; any other tag is `UnexpectedByte`. -/
def TreeFeatureType.decode : List Nat → Except EdError TreeFeatureType
  | [] => .error .unexpectedEof
  | b :: rest =>
    if b = 0 then .ok .basicMerk
    else if b = 1 then
      match rest with
      | b0 :: b1 :: b2 :: b3 :: b4 :: b5 :: b6 :: b7 :: _ =>
        .ok (.summedMerk (u64FromBeBytes [b0, b1, b2, b3, b4, b5, b6, b7]))
      | _ => .error .unexpectedEof
    else .error (.unexpectedByte b)

/-- Modelled from the spec: the spec's feature type
`BasicMerk | SummedMerk(i64)` with a signed 64-bit accumulator. -/
inductive SpecTreeFeatureType where
  | basicMerk
  | summedMerk (sum : Int)
deriving DecidableEq, Repr

/-- Two's-complement reinterpretation of an unsigned 64-bit value as an
`i64`. -/
def i64OfU64 (u : Nat) : Int :=
  if u < 2 ^ 63 then (u : Int) else (u : Int) - 2 ^ 64

/-- Modelled from the spec: decoding of the spec's feature type, whose
`SummedMerk` body is an 8-byte big-endian signed (`i64`) accumulator.
Same framing as the source decoder, but the sum is reinterpreted in
two's complement. -/
def specFeatureDecode : List Nat → Except EdError SpecTreeFeatureType
  | [] => .error .unexpectedEof
  | b :: rest =>
    if b = 0 then .ok .basicMerk
    else if b = 1 then
      match rest with
      | b0 :: b1 :: b2 :: b3 :: b4 :: b5 :: b6 :: b7 :: _ =>
        .ok (.summedMerk (i64OfU64 (u64FromBeBytes [b0, b1, b2, b3, b4, b5, b6, b7])))
      | _ => .error .unexpectedEof
    else .error (.unexpectedByte b)

/-- View of the source feature type in the spec's carrier, reading the
unsigned accumulator as a non-negative integer. -/
def TreeFeatureType.toSpecCarrier : TreeFeatureType → SpecTreeFeatureType
  | .basicMerk => .basicMerk
  | .summedMerk s => .summedMerk (s : Int)

/-! ## Subtree paths (`path/src/lib.rs`) -/

/-- `CowLike` from `path/src/util.rs`: a byte segment that is either
owned (`Vec<u8>`) or borrowed (`&[u8]`). -/
inductive CowLike where
  | owned (v : Bytes)
  | borrowed (v : Bytes)

/-- The bytes carried by a `CowLike`, regardless of ownership. -/
def CowLike.bytes : CowLike → Bytes
  | .owned v => v
  | .borrowed v => v

/-- `SubtreePathRelative`: path information relative to a base — empty,
or one added child segment. -/
inductive SubtreePathRelative where
  | empty
  | single (s : CowLike)

mutual

/-- `SubtreePath` from `path/src/lib.rs`: a derivation starting point
(`base`) plus path information relative to it. -/
inductive SubtreePath where
  | mk (base : SubtreePathBase) (relative : SubtreePathRelative)

/-- `SubtreePathBase`: a slice of path segments, or a reference to
another derived path. -/
inductive SubtreePathBase where
  | slice (segments : List Bytes)
  | derivedPath (p : SubtreePath)

end

/-- The `Hash` impls are modelled by the exact sequence of byte-string
writes fed to the `Hasher`: hashing one segment feeds its length and
contents, so the hasher state is determined by the list of absorbed
segments, in order.  `SubtreePathRelative`'s writes; the `Single` case
is `CowLike`'s `Hash`.  Modelled from the spec: `path/src/util.rs` is
absent, and its `CowLike` hashing must absorb the segment bytes exactly
as hashing a `&[u8]` does (the path hash is "stable across derivation
strategies"). -/
def SubtreePathRelative.hashWrites : SubtreePathRelative → List Bytes
  | .empty => []
  | .single s => [s.bytes]

mutual

/-- `Hash for SubtreePath`: absorb the base, then the relative part. -/
def SubtreePath.hashWrites : SubtreePath → List Bytes
  | .mk base rel => base.hashWrites ++ rel.hashWrites

/-- `Hash for SubtreePathBase`: a slice absorbs each segment in forward
order; a derived path absorbs whatever that path absorbs. -/
def SubtreePathBase.hashWrites : SubtreePathBase → List Bytes
  | .slice segments => segments
  | .derivedPath p => p.hashWrites

end

/-- The segments contributed by the relative part in `to_owned`. -/
def SubtreePathRelative.segments : SubtreePathRelative → List Bytes
  | .empty => []
  | .single s => [s.bytes]

mutual

/-- `SubtreePath::to_owned`: collect the logical path as a vector of
segments (base first, then the relative segment if any). -/
def SubtreePath.toVec : SubtreePath → List Bytes
  | .mk base rel => base.toVec ++ rel.segments

/-- Base part of `to_owned`. -/
def SubtreePathBase.toVec : SubtreePathBase → List Bytes
  | .slice segments => segments
  | .derivedPath p => p.toVec

end

/-- `SubtreePath::from_slice`. -/
def SubtreePath.fromSlice (s : List Bytes) : SubtreePath :=
  .mk (.slice s) .empty

mutual

/-- `SubtreePath::derive_parent`: chop the relative segment if present,
otherwise split the base. -/
def SubtreePath.deriveParent : SubtreePath → Option (SubtreePath × Bytes)
  | .mk base .empty => base.parent
  | .mk base (.single r) => some (.mk base .empty, r.bytes)

/-- `SubtreePathBase::parent`: for a slice, split off the last segment
(`split_last`); for a derived path, delegate to `derive_parent`. -/
def SubtreePathBase.parent : SubtreePathBase → Option (SubtreePath × Bytes)
  | .slice segments =>
    segments.getLast?.map fun tail => (SubtreePath.fromSlice segments.dropLast, tail)
  | .derivedPath p => p.deriveParent

end

/-- `SubtreePath::derive_child` (borrowed segment). -/
def SubtreePath.deriveChild (p : SubtreePath) (segment : Bytes) : SubtreePath :=
  .mk (.derivedPath p) (.single (.borrowed segment))

/-- `SubtreePath::derive_child_owned` (owned segment). -/
def SubtreePath.deriveChildOwned (p : SubtreePath) (segment : Bytes) : SubtreePath :=
  .mk (.derivedPath p) (.single (.owned segment))

/-! ## Chunk proofs (`merk/src/proofs/chunk.rs`) -/

/-- Modelled from the spec: the fixed 32-byte cryptographic hash `H` of
the hashing discipline, taken as a free algebra so that distinct inputs
give distinct digests.  `null` is the zero hash (missing child / empty
tree); `valueH v` is `H(value)`; `kvH k vh` is the kv-hash
`H(key ∥ value_hash)`; `nodeH kv l r` is the node hash
`H(kv_hash ∥ left ∥ right)`. -/
inductive Digest where
  | null
  | valueH (v : Bytes)
  | kvH (key : Bytes) (vh : Digest)
  | nodeH (kv l r : Digest)
deriving DecidableEq, Repr

/-- Modelled from the spec: proof `Node` variants of §4.F. -/
inductive PNode where
  | hash (h : Digest)
  | kvHash (h : Digest)
  | kv (key value : Bytes)
  | kvValueHash (key value : Bytes) (vh : Digest)
  | kvDigest (key : Bytes) (vh : Digest)
  | kvRefValueHash (key value : Bytes) (vh : Digest)
  | kvValueHashFeatureType (key value : Bytes) (vh : Digest)
      (ft : TreeFeatureType)
deriving DecidableEq, Repr

/-- Proof opcodes: push a node, or attach the stacked subtree as the
left (`parent`) or right (`child`) child. -/
inductive Op where
  | push (n : PNode)
  | parent
  | child
deriving DecidableEq, Repr

/-- A reconstructed `ProofTree`. -/
inductive ProofTree where
  | node (n : PNode) (left right : Option ProofTree)

/-- Messages of the `Error::OldChunkRestoringError` values produced in
`chunk.rs` (kept as an enumeration instead of strings). -/
inductive ChunkMsg where
  | leafChunksMustContainFullSubtree
  | leafChunkProofDidNotMatchExpectedHash
deriving DecidableEq, Repr

/-- Errors arising while executing a chunk proof. -/
inductive ChunkError where
  | oldChunkRestoring (msg : ChunkMsg)
  | stackUnderflow
  | attachOccupied
  | stackNotSingleton
deriving DecidableEq, Repr

/-- The kv-hash a proof node contributes, per the hashing discipline:
full `KV` nodes hash their value first, the `KV…Hash` variants carry the
value hash, and `KVHash` carries the kv-hash itself. -/
def PNode.kvHashOf : PNode → Digest
  | .hash h => h
  | .kvHash h => h
  | .kv k v => .kvH k (.valueH v)
  | .kvValueHash k _ vh => .kvH k vh
  | .kvDigest k vh => .kvH k vh
  | .kvRefValueHash k _ vh => .kvH k vh
  | .kvValueHashFeatureType k _ vh _ => .kvH k vh

/-- Hash of a reconstructed proof tree: a `Hash` node is its digest
as-is, every other node hashes as
`node_hash = H(kv_hash ∥ left ∥ right)`. -/
def ProofTree.hash : ProofTree → Digest
  | .node n l r =>
    match n with
    | .hash h => h
    | other =>
      .nodeH other.kvHashOf
        (match l with
         | none => .null
         | some lt => lt.hash)
        (match r with
         | none => .null
         | some rt => rt.hash)

/-- Modelled from the spec: the stack machine `execute` of §4.F.  Each
pushed node is first passed to the `visit` check; `parent` pops the
parent then the child and attaches the child on the left; `child` pops
the child then the parent and attaches it on the right; at the end
exactly one tree must remain. -/
def executeGo (visit : PNode → Except ChunkError Unit) :
    List Op → List ProofTree → Except ChunkError ProofTree
  | [], [t] => .ok t
  | [], _ => .error .stackNotSingleton
  | .push n :: rest, stack =>
    match visit n with
    | .error e => .error e
    | .ok _ => executeGo visit rest (.node n none none :: stack)
  | .parent :: rest, .node n none r :: c :: stack =>
    executeGo visit rest (.node n (some c) r :: stack)
  | .parent :: _, _ :: _ :: _ => .error .attachOccupied
  | .parent :: _, _ => .error .stackUnderflow
  | .child :: rest, c :: .node n l none :: stack =>
    executeGo visit rest (.node n l (some c) :: stack)
  | .child :: _, _ :: _ :: _ => .error .attachOccupied
  | .child :: _, _ => .error .stackUnderflow

/-- `execute` run from the empty stack. -/
def executeOps (ops : List Op) (visit : PNode → Except ChunkError Unit) :
    Except ChunkError ProofTree :=
  executeGo visit ops []

/-- The per-node check of `verify_leaf`: only full KV-type nodes (`KV`,
`KVValueHash`, `KVValueHashFeatureType`) are allowed. -/
def leafCheck : PNode → Except ChunkError Unit
  | .kvValueHash _ _ _ => .ok ()
  | .kv _ _ => .ok ()
  | .kvValueHashFeatureType _ _ _ _ => .ok ()
  | _ => .error (.oldChunkRestoring .leafChunksMustContainFullSubtree)

/-- `verify_leaf` from `chunk.rs`: execute the ops with the full-KV
check, then compare the reconstructed tree's hash with `expected_hash`.
The source *constructs* the mismatch error but never returns it — the
value is dropped on the floor — so the mismatch branch is modelled
exactly that way: the comparison result is bound and discarded, and
`Ok(tree)` is returned either way. -/
def verifyLeaf (ops : List Op) (expectedHash : Digest) :
    Except ChunkError ProofTree :=
  match executeOps ops leafCheck with
  | .error e => .error e
  | .ok tree =>
    let dropped : Option ChunkError :=
      if tree.hash = expectedHash then none
      else some (.oldChunkRestoring .leafChunkProofDidNotMatchExpectedHash)
    let _ := dropped
    .ok tree

/-- `MIN_TRUNK_HEIGHT` from `chunk.rs`. -/
def minTrunkHeight : Nat := 5

/-- `usize::MAX` on a 64-bit target, used by `create_trunk_proof` for
the whole-tree leaf traversal. -/
def usizeMax : Nat := 2 ^ 64 - 1

/-- The kv payload of one committed Merk node: key, value bytes, value
hash and feature type (the fields `to_kv_value_hash_feature_type_node`
reads). -/
structure TreeKV where
  key : Bytes
  value : Bytes
  valueHash : Digest
  feature : TreeFeatureType
deriving DecidableEq, Repr

/-- A committed in-memory Merk tree as walked by `RefWalker`: node kv
data plus optional children (links are materialized). -/
inductive MerkTree where
  | node (kv : TreeKV) (left right : Option MerkTree)

/-- Kv-hash of a Merk node (`kv_hash = H(key ∥ value_hash)`). -/
def MerkTree.kvHashOf : MerkTree → Digest
  | .node kv _ _ => .kvH kv.key kv.valueHash

/-- Node hash of a committed Merk node
(`node_hash = H(kv_hash ∥ left ∥ right)`), the digest a child `Link`
carries. -/
def MerkTree.nodeHash : MerkTree → Digest
  | .node kv l r =>
    .nodeH (.kvH kv.key kv.valueHash)
      (match l with
       | none => .null
       | some lt => lt.nodeHash)
      (match r with
       | none => .null
       | some rt => rt.nodeHash)

/-- `Tree::height`: `1 + max(left_height, right_height)`. -/
def MerkTree.height : MerkTree → Nat
  | .node _ l r =>
    1 + max
      (match l with
       | none => 0
       | some lt => lt.height)
      (match r with
       | none => 0
       | some rt => rt.height)

/-- `traverse_for_height_proof` from `chunk.rs`: walk the left edge; at
the leftmost node fix `trunk_height = depth / 2`; on the way back push a
`KVHash` node (plus `Parent` if a left child was visited, plus the right
child's `Hash` and `Child`) for every node deeper than the trunk
height.  Returns the pushed ops and the trunk height. -/
def traverseForHeightProof : MerkTree → Nat → List Op × Nat
  | .node kv l r, depth =>
    let rec' :=
      match l with
      | none => ([], depth / 2)
      | some lt => traverseForHeightProof lt (depth + 1)
    let opsSelf :=
      if depth > rec'.2 then
        [Op.push (PNode.kvHash (.kvH kv.key kv.valueHash))] ++
        (match l with
         | none => []
         | some _ => [Op.parent]) ++
        (match r with
         | none => []
         | some rt => [Op.push (PNode.hash rt.nodeHash), Op.child])
      else []
    (rec'.1 ++ opsSelf, rec'.2)

/-- `traverse_for_trunk` from `chunk.rs`: emit all nodes down to
`remaining_depth` as `KVValueHashFeatureType` (with `Parent`/`Child`
glue); at remaining depth `0` emit the node's `Hash`, except on the
leftmost path where the height proof already covers it. -/
def traverseForTrunk : MerkTree → Nat → Bool → List Op
  | t, 0, isLeftmost =>
    if isLeftmost then [] else [Op.push (PNode.hash t.nodeHash)]
  | .node kv l r, remainingDepth + 1, isLeftmost =>
    (match l with
     | none => []
     | some lt => traverseForTrunk lt remainingDepth isLeftmost) ++
    [Op.push (PNode.kvValueHashFeatureType kv.key kv.value kv.valueHash
      kv.feature)] ++
    (match l with
     | none => []
     | some _ => [Op.parent]) ++
    (match r with
     | none => []
     | some rt => traverseForTrunk rt remainingDepth false ++ [Op.child])

/-- The measured trunk height: half the left-edge depth, as returned by
`traverse_for_height_proof` starting at depth `1`. -/
def measuredTrunkHeight (t : MerkTree) : Nat :=
  (traverseForHeightProof t 1).2

/-- `create_trunk_proof` from `chunk.rs`: run the height proof; if the
measured trunk height is below `MIN_TRUNK_HEIGHT`, clear the proof and
emit the entire tree (`traverse_for_trunk` with `usize::MAX`) with
`has_more = false`; otherwise append the trunk traversal to the height
proof with `has_more = true`. -/
def createTrunkProof (t : MerkTree) : List Op × Bool :=
  let hp := traverseForHeightProof t 1
  if hp.2 < minTrunkHeight then
    (traverseForTrunk t usizeMax true, false)
  else
    (hp.1 ++ traverseForTrunk t hp.2 true, true)

/-- The nodes pushed by an opcode list, in order. -/
def pushedNodes (ops : List Op) : List PNode :=
  ops.filterMap fun op =>
    match op with
    | .push n => some n
    | _ => none

/-- Is a proof node a full `KVValueHashFeatureType` node? -/
def PNode.isKVVHFT : PNode → Bool
  | .kvValueHashFeatureType _ _ _ _ => true
  | _ => false

/-- Is a proof node an abridged `Hash` node? -/
def PNode.isHashNode : PNode → Bool
  | .hash _ => true
  | _ => false

/-- The `KVValueHashFeatureType` proof node for a Merk node's kv data. -/
def TreeKV.toKVVHFT (kv : TreeKV) : PNode :=
  .kvValueHashFeatureType kv.key kv.value kv.valueHash kv.feature

/-- In-order list of all kv payloads of a Merk tree. -/
def MerkTree.inorderKV : MerkTree → List TreeKV
  | .node kv l r =>
    (match l with
     | none => []
     | some lt => lt.inorderKV) ++
    [kv] ++
    (match r with
     | none => []
     | some rt => rt.inorderKV)

/-- In-order list of the kv payloads of the nodes in the top `d` levels
of a Merk tree. -/
def MerkTree.inorderKVToDepth : MerkTree → Nat → List TreeKV
  | _, 0 => []
  | .node kv l r, d + 1 =>
    (match l with
     | none => []
     | some lt => lt.inorderKVToDepth d) ++
    [kv] ++
    (match r with
     | none => []
     | some rt => rt.inorderKVToDepth d)

/-- In-order list of the node hashes at depth exactly `d + 1` (the
out-of-trunk children), skipping the leftmost-path node when `leftmost`
is set. -/
def MerkTree.fringeHashes : MerkTree → Nat → Bool → List Digest
  | t, 0, leftmost => if leftmost then [] else [t.nodeHash]
  | .node _ l r, d + 1, leftmost =>
    (match l with
     | none => []
     | some lt => lt.fringeHashes d leftmost) ++
    (match r with
     | none => []
     | some rt => rt.fringeHashes d false)

/-- Leaf kv payload used to build concrete trees. -/
def mkLeafKV (k : Nat) : TreeKV := ⟨[k], [], Digest.null, .basicMerk⟩

/-- A right spine of `n + 1` nodes (every node has only a right child). -/
def rightSpine : Nat → MerkTree
  | 0 => .node (mkLeafKV 0) none none
  | n + 1 => .node (mkLeafKV (n + 1)) none (some (rightSpine n))

/-! ## GroveDB composition layer
(`grovedb/src/operations/get/mod.rs`, `grovedb/src/operations/delete.rs`)

The Merk storage engine and the `Element` module are not among the
verified sources, so the committed state is modelled from the spec as
the set of `(path, key, element)` triples (§8 invariant 1), with
`get_raw` returning the stored element, `Element::delete` removing its
key, and `clear` dropping a whole prefix. -/

/-- A GroveDB path: a sequence of byte-string segments. -/
abbrev GPath := List Bytes

/-- Modelled from the spec: reference path expressions.  The variants
beyond `AbsolutePath` live in the absent `reference_path.rs`; absolute
targets suffice for the resolution logic verified here, which treats the
materialized path opaquely. -/
inductive RefPath where
  | absolutePath (p : GPath)
deriving DecidableEq, Repr

/-- Modelled from the spec: the `Element` stored at a `(path, key)` pair
(spec §3/§6). -/
inductive Element where
  | item (v : Bytes) (flags : Option Bytes)
  | reference (target : RefPath) (maxHops : Option Nat) (flags : Option Bytes)
  | tree (rootKey : Option Bytes) (flags : Option Bytes)
  | sumItem (sum : Int) (flags : Option Bytes)
  | sumTree (rootKey : Option Bytes) (sum : Int) (flags : Option Bytes)
deriving DecidableEq, Repr

/-- GroveDB error kinds (spec §7), payloads dropped. -/
inductive GroveError where
  | pathKeyNotFound
  | pathNotFound
  | pathParentLayerNotFound
  | invalidPath
  | invalidParentLayerPath
  | corruptedReferencePathKeyNotFound
  | corruptedReferencePathNotFound
  | corruptedReferencePathParentLayerNotFound
  | corruptedPath
  | cyclicReference
  | referenceLimit
  | deletingNonEmptyTree
  | notSupported
  | corruptedData
deriving DecidableEq, Repr

/-- Modelled from the spec: a committed GroveDB state as an association
list over `(path, key)` (§8 invariant 1). -/
abbrev GroveState := List ((GPath × Bytes) × Element)

/-- Element stored at `(path, key)`, if any. -/
def stateGet (st : GroveState) (pk : GPath × Bytes) : Option Element :=
  (st.find? fun e => decide (e.1 = pk)).map (·.2)

/-- Does every step of `rest` (relative to the already-validated
`done`) name a `Tree`/`SumTree` element?  Auxiliary walk for
`subtreeExists`. -/
def subtreeExistsAux : GroveState → GPath → GPath → Bool
  | _, _, [] => true
  | st, done, k :: rest =>
    match stateGet st (done, k) with
    | some (.tree _ _) => subtreeExistsAux st (done ++ [k]) rest
    | some (.sumTree _ _ _) => subtreeExistsAux st (done ++ [k]) rest
    | _ => false

/-- Modelled from the spec: the subtree at `path` exists when every
prefix of `path` names a nested `Tree`/`SumTree` (the root subtree
always exists). -/
def subtreeExists (st : GroveState) (path : GPath) : Bool :=
  subtreeExistsAux st [] path

/-- Modelled from the spec: `get_raw` — open the Merk at `path` (a
broken parent chain surfaces as `PathParentLayerNotFound`, the mapping
applied in `get_raw_on_transaction` / `get_raw_without_transaction`) and
read the element (`PathKeyNotFound` when absent). -/
def getRaw (st : GroveState) (path : GPath) (key : Bytes) :
    Except GroveError Element :=
  if subtreeExists st path then
    match stateGet st (path, key) with
    | some e => .ok e
    | none => .error .pathKeyNotFound
  else .error .pathParentLayerNotFound

/-- `MAX_REFERENCE_HOPS` from `get/mod.rs`. -/
def maxReferenceHops : Nat := 10

/-- Modelled from the spec: `path_from_reference_qualified_path_type` —
materialize a reference target to an absolute path, given the referring
element's own qualified path. -/
def pathFromReferenceQualified (rp : RefPath) (_qualified : GPath) :
    Except GroveError GPath :=
  match rp with
  | .absolutePath p => .ok p

/-- Modelled from the spec: `path_from_reference_path_type` —
materialize a reference target given the referring element's parent path
and key. -/
def pathFromReference (rp : RefPath) (_path : GPath) (_key : Bytes) :
    Except GroveError GPath :=
  match rp with
  | .absolutePath p => .ok p

/-- `Vec::split_last` on a qualified path: the key and the parent
path. -/
def splitLastSeg (p : GPath) : Option (GPath × Bytes) :=
  match p.getLast? with
  | none => none
  | some k => some (p.dropLast, k)

/-- The error mapping `follow_reference` applies to `get_raw` failures:
lookup errors along a reference chain become corruption errors. -/
def mapRefError (e : GroveError) : GroveError :=
  match e with
  | .pathParentLayerNotFound => .corruptedReferencePathParentLayerNotFound
  | .pathKeyNotFound => .corruptedReferencePathKeyNotFound
  | .pathNotFound => .corruptedReferencePathNotFound
  | other => other

/-- The loop body of `follow_reference` from `get/mod.rs`, with the
remaining hop budget and the visited set explicit: while hops remain,
reject already-visited paths as `CyclicReference`, split the qualified
path, `get_raw` (errors mapped by `mapRefError`), record the path as
visited, and either return the non-reference element or continue at the
materialized target; a spent budget is `ReferenceLimit`. -/
def followReferenceLoop (st : GroveState) :
    GPath → Nat → List GPath → Except GroveError Element
  | _, 0, _ => .error .referenceLimit
  | path, hopsLeft + 1, visited =>
    if path ∈ visited then .error .cyclicReference
    else
      match splitLastSeg path with
      | none => .error .corruptedPath
      | some (pathSlice, key) =>
        match getRaw st pathSlice key with
        | .error e => .error (mapRefError e)
        | .ok currentElement =>
          match currentElement with
          | .reference rp _ _ =>
            match pathFromReferenceQualified rp path with
            | .error e => .error e
            | .ok newPath =>
              followReferenceLoop st newPath hopsLeft (path :: visited)
          | other => .ok other

/-- `follow_reference`: start with `MAX_REFERENCE_HOPS` hops and an
empty visited set. -/
def followReference (st : GroveState) (path : GPath) :
    Except GroveError Element :=
  followReferenceLoop st path maxReferenceHops []

/-- `GroveDb::get` from `get/mod.rs`: `get_raw`, then resolve a
`Reference` through `follow_reference`. -/
def groveGet (st : GroveState) (path : GPath) (key : Bytes) :
    Except GroveError Element :=
  match getRaw st path key with
  | .error e => .error e
  | .ok (.reference rp _ _) =>
    match pathFromReference rp path key with
    | .error e => .error e
    | .ok p => followReference st p
  | .ok other => .ok other

/-- One reference hop: if the element at the qualified `path` is a
reference that materializes, the next qualified path. -/
def refStep (st : GroveState) (path : GPath) : Option GPath :=
  match splitLastSeg path with
  | none => none
  | some (pathSlice, key) =>
    match getRaw st pathSlice key with
    | .ok (.reference rp _ _) =>
      match pathFromReferenceQualified rp path with
      | .ok p => some p
      | .error _ => none
    | _ => none

/-- The `n`-th qualified path of the reference chain starting at `p`. -/
def refIter (st : GroveState) (p : GPath) : Nat → Option GPath
  | 0 => some p
  | n + 1 => (refIter st p n).bind (refStep st)

/-- The concrete cyclic state of scenario S6: a `Tree` leaf `A = [0]`
and, inside it at key `B = [1]`, a `Reference` whose target is its own
qualified path `[A, B]`. -/
def cycleState : GroveState :=
  [(([], [0]), .tree none none),
   (([[0]], [1]), .reference (.absolutePath [[0], [1]]) none none)]

/-- A chain of ten root-level references `[i] → [i+1]` followed by an
item at `[10]`. -/
def chainState : GroveState :=
  (List.range 11).map fun i =>
    (([], [i]),
     if i < 10 then Element.reference (.absolutePath [[i + 1]]) none none
     else .item [7] none)

/-- Three root-level references forming the cycle
`[0] → [1] → [2] → [0]`. -/
def cycle3State : GroveState :=
  [(([], [0]), .reference (.absolutePath [[1]]) none none),
   (([], [1]), .reference (.absolutePath [[2]]) none none),
   (([], [2]), .reference (.absolutePath [[0]]) none none)]

/-! ## Delete operations (`grovedb/src/operations/delete.rs`) -/

/-- `DeleteOptions` from `delete.rs`. -/
structure DeleteOptions where
  allowDeletingNonEmptyTrees : Bool
  deletingNonEmptyTreesReturnsError : Bool
  baseRootStorageIsFree : Bool
deriving DecidableEq, Repr

/-- `DeleteOptions::default()`. -/
def defaultDeleteOptions : DeleteOptions :=
  { allowDeletingNonEmptyTrees := false,
    deletingNonEmptyTreesReturnsError := true,
    baseRootStorageIsFree := true }

/-- Modelled from the spec: `Merk::is_empty_tree` — the Merk at `p`
holds no key. -/
def subtreeIsEmpty (st : GroveState) (p : GPath) : Bool :=
  st.all fun e => !(decide (e.1.1 = p))

/-- Modelled from the spec: `Element::delete` — remove the key from its
Merk. -/
def stateRemove (st : GroveState) (pk : GPath × Bytes) : GroveState :=
  st.filter fun e => !(decide (e.1 = pk))

/-- Does `full` start with the segment sequence `pre`? -/
def startsWithSegs : GPath → GPath → Bool
  | _, [] => true
  | [], _ :: _ => false
  | x :: xs, y :: ys => decide (x = y) && startsWithSegs xs ys

/-- Modelled from the spec: clearing the Merk at `p` and (via
`find_subtrees`) every descendant Merk — drop all entries whose path
extends `p`. -/
def stateClearPrefix (st : GroveState) (p : GPath) : GroveState :=
  st.filter fun e => !(startsWithSegs e.1.1 p)

/-- `delete_internal_on_transaction` from `delete.rs`, at the state
level (the storage contexts and cost plumbing are carried by the missing
Merk engine): read the element; for a `Tree`, check emptiness of the
nested Merk and apply the non-empty-tree guard; otherwise clear the
nested forest if needed, delete the element, and propagate (which
changes no `(path, key, element)` triple). -/
def deleteInternalOnTransaction (st : GroveState) (path : GPath)
    (key : Bytes) (options : DeleteOptions) :
    Except GroveError (Bool × GroveState) :=
  match getRaw st path key with
  | .error e => .error e
  | .ok element =>
    match element with
    | .tree _ _ =>
      let subtreeMerkPath := path ++ [key]
      let isEmpty := subtreeIsEmpty st subtreeMerkPath
      if !options.allowDeletingNonEmptyTrees && !isEmpty then
        if options.deletingNonEmptyTreesReturnsError then
          .error .deletingNonEmptyTree
        else .ok (false, st)
      else
        if !isEmpty then
          .ok (true,
            stateRemove (stateClearPrefix st subtreeMerkPath) (path, key))
        else .ok (true, stateRemove st (path, key))
    | _ => .ok (true, stateRemove st (path, key))

/-- `delete_internal_without_transaction` from `delete.rs`: the same
branch structure as the transactional variant; the nested Merks are
cleared in reverse discovery order, which leaves the same state. -/
def deleteInternalWithoutTransaction (st : GroveState) (path : GPath)
    (key : Bytes) (options : DeleteOptions) :
    Except GroveError (Bool × GroveState) :=
  match getRaw st path key with
  | .error e => .error e
  | .ok element =>
    match element with
    | .tree _ _ =>
      let subtreeMerkPath := path ++ [key]
      let isEmpty := subtreeIsEmpty st subtreeMerkPath
      if !options.allowDeletingNonEmptyTrees && !isEmpty then
        if options.deletingNonEmptyTreesReturnsError then
          .error .deletingNonEmptyTree
        else .ok (false, st)
      else
        if !isEmpty then
          .ok (true,
            stateRemove (stateClearPrefix st subtreeMerkPath) (path, key))
        else .ok (true, stateRemove st (path, key))
    | _ => .ok (true, stateRemove st (path, key))

/-- `GroveDb::delete`: defaults the options and dispatches on the
transaction argument, discarding the boolean. -/
def groveDelete (st : GroveState) (path : GPath) (key : Bytes)
    (options : Option DeleteOptions) (tx : Bool) :
    Except GroveError GroveState :=
  let opts := options.getD defaultDeleteOptions
  match (if tx then deleteInternalOnTransaction st path key opts
         else deleteInternalWithoutTransaction st path key opts) with
  | .error e => .error e
  | .ok (_, st') => .ok st'

/-- Modelled from the spec: the batch op kinds of §4.H
(`batch/mod.rs` is absent); `Patch`/`InsertIfNotExists` fold into the
non-delete kinds for the logic verified here. -/
inductive GroveOp where
  | insert (element : Element)
  | replace (element : Element)
  | delete
  | deleteTree
deriving DecidableEq, Repr

/-- Modelled from the spec: a batch operation `GroveDbOp`. -/
structure GroveDbOp where
  path : GPath
  key : Bytes
  op : GroveOp
deriving DecidableEq, Repr

/-- `GroveDbOp::delete_run_op`. -/
def GroveDbOp.deleteRunOp (path : GPath) (key : Bytes) : GroveDbOp :=
  ⟨path, key, .delete⟩

/-- `GroveDbOp::delete_tree_run_op`. -/
def GroveDbOp.deleteTreeRunOp (path : GPath) (key : Bytes) : GroveDbOp :=
  ⟨path, key, .deleteTree⟩

/-- Modelled from the spec: `Merk::is_empty_tree_except` — empty except
for keys a pending outer batch will remove. -/
def subtreeIsEmptyExcept (st : GroveState) (p : GPath)
    (exceptKeys : List Bytes) : Bool :=
  st.all fun e => !(decide (e.1.1 = p)) || decide (e.1.2 ∈ exceptKeys)

/-- `delete_operation_for_delete_internal` from `delete.rs`: an empty
path is `InvalidPath` (a forest root leaf cannot be deleted this way);
otherwise validate, read the element, and for a `Tree` decide emptiness
modulo the current batch's pending deletes and inserts, producing a
`delete_tree_run_op` / `delete_run_op`, the non-empty-tree guard result,
or `NotSupported`. -/
def deleteOperationForDeleteInternal (st : GroveState) (path : GPath)
    (key : Bytes) (options : DeleteOptions) (validate : Bool)
    (currentBatchOperations : List GroveDbOp) :
    Except GroveError (Option GroveDbOp) :=
  if path.length = 0 then .error .invalidPath
  else if validate && !(subtreeExists st path) then .error .pathNotFound
  else
    match getRaw st path key with
    | .error e => .error e
    | .ok element =>
      match element with
      | .tree _ _ =>
        let subtreeMerkPathVec := path ++ [key]
        let batchDeletedKeys := currentBatchOperations.filterMap fun op =>
          match op.op with
          | .delete =>
            if op.path = subtreeMerkPathVec then some op.key else none
          | .deleteTree =>
            if op.path = subtreeMerkPathVec then some op.key else none
          | _ => none
        let isEmptyExceptDeletes :=
          subtreeIsEmptyExcept st subtreeMerkPathVec batchDeletedKeys
        let anyPendingInsert := currentBatchOperations.any fun op =>
          match op.op with
          | .delete => false
          | .deleteTree => false
          | _ => decide (op.path = subtreeMerkPathVec)
        let isEmpty := isEmptyExceptDeletes && !anyPendingInsert
        if !options.allowDeletingNonEmptyTrees && !isEmpty then
          if options.deletingNonEmptyTreesReturnsError then
            .error .deletingNonEmptyTree
          else .ok none
        else if isEmpty then
          .ok (some (GroveDbOp.deleteTreeRunOp path key))
        else .error .notSupported
      | _ => .ok (some (GroveDbOp.deleteRunOp path key))

/-- A root `Tree` at key `[1]` whose nested Merk holds one item. -/
def nonEmptyTreeState : GroveState :=
  [(([], [1]), .tree none none), (([[1]], [2]), .item [9] none)]

/-- A single root-level item at key `[1]`. -/
def rootItemState : GroveState := [(([], [1]), .item [2] none)]

/-! ## Storage-cost accounting (spec §4.A; the merk cost engine is not
among the verified sources) -/

/-- `StorageRemovedBytes` (spec §4.A): none, a flat count, or a
per-epoch map. -/
inductive StorageRemovedBytes where
  | noStorageRemoval
  | basicStorageRemoval (n : Nat)
  | sectionedStorageRemoval (m : List (Nat × Nat))
deriving DecidableEq, Repr

/-- `StorageCost`: added, replaced and removed bytes. -/
structure StorageCost where
  addedBytes : Nat
  replacedBytes : Nat
  removedBytes : StorageRemovedBytes
deriving DecidableEq, Repr

/-- `OperationCost`: seeks, loaded bytes, storage cost, hash calls. -/
structure OperationCost where
  seekCount : Nat
  storageLoadedBytes : Nat
  storageCost : StorageCost
  hashNodeCalls : Nat
deriving DecidableEq, Repr

/-- Modelled from the spec: `varint_len(n)`, the length of the
variable-length integer encoding of `n` (7 payload bits per byte). -/
def varintLen (n : Nat) : Nat :=
  if n < 2 ^ 7 then 1 else if n < 2 ^ 14 then 2 else if n < 2 ^ 21 then 3
  else if n < 2 ^ 28 then 4 else if n < 2 ^ 35 then 5
  else if n < 2 ^ 42 then 6 else if n < 2 ^ 49 then 7
  else if n < 2 ^ 56 then 8 else if n < 2 ^ 63 then 9 else 10

/-- Modelled from the spec (§4.A byte-prediction contract): the node
row key footprint `32 (prefix) + key_len + varint_len(32 + key_len)`. -/
def nodeKeyStorageSize (keyLen : Nat) : Nat :=
  32 + keyLen + varintLen (32 + keyLen)

/-- Modelled from the spec (§4.A): the value footprint of an `Item`:
flags-option tag, optional flags with their length byte, variant tag,
value with its length varint, value hash and node hash, plus the varint
of the total. -/
def itemValueStorageSize (valueLen : Nat) (flagsLen : Option Nat) : Nat :=
  let flagsBytes :=
    match flagsLen with
    | none => 0
    | some n => varintLen n + n
  let body := 1 + flagsBytes + 1 + varintLen valueLen + valueLen + 32 + 32
  body + varintLen body

/-- Modelled from the spec (§4.A): the parent-hook overhead
`key_len + 32 (hash) + 1 (key_len byte) + 2 (child heights)`. -/
def parentHookSize (keyLen : Nat) : Nat :=
  keyLen + 32 + 1 + 2

/-- Removed bytes of deleting an `Item` row: key footprint + value
footprint + parent hook. -/
def itemDeleteRemovedBytes (keyLen valueLen : Nat)
    (flagsLen : Option Nat) : Nat :=
  nodeKeyStorageSize keyLen + itemValueStorageSize valueLen flagsLen +
    parentHookSize keyLen

/-- Modelled from the spec: scenario S2's full operation cost — the
removed bytes from the §4.A byte-prediction contract at
`key = b"key1"`, `value = b"cat"`, no flags; the seek, load and hash
figures as the spec states them for this scenario. -/
def s2ItemDeleteCost : OperationCost :=
  { seekCount := 6, storageLoadedBytes := 152,
    storageCost :=
      { addedBytes := 0, replacedBytes := 0,
        removedBytes :=
          .basicStorageRemoval (itemDeleteRemovedBytes 4 3 none) },
    hashNodeCalls := 2 }

/-! ## Batch / non-batch deletion parity (spec §4.H; `batch/mod.rs` and
the merk cost engine are not among the verified sources) -/

/-- Addition of removed-bytes tallies (mixed basic/sectioned merges are
the opaque sectioned policy of the spec's open question). -/
def StorageRemovedBytes.add :
    StorageRemovedBytes → StorageRemovedBytes → StorageRemovedBytes
  | .noStorageRemoval, y => y
  | x, .noStorageRemoval => x
  | .basicStorageRemoval a, .basicStorageRemoval b =>
    .basicStorageRemoval (a + b)
  | .basicStorageRemoval a, .sectionedStorageRemoval m =>
    .sectionedStorageRemoval ((0, a) :: m)
  | .sectionedStorageRemoval m, .basicStorageRemoval b =>
    .sectionedStorageRemoval (m ++ [(0, b)])
  | .sectionedStorageRemoval m, .sectionedStorageRemoval m' =>
    .sectionedStorageRemoval (m ++ m')

/-- Component-wise addition of storage costs. -/
def StorageCost.add (a b : StorageCost) : StorageCost :=
  ⟨a.addedBytes + b.addedBytes, a.replacedBytes + b.replacedBytes,
   a.removedBytes.add b.removedBytes⟩

/-- Modelled from the spec: the storage costs of the per-Merk
primitives the deletion paths invoke — deleting one element row
(`Element::delete`, with the transaction flavor, the Merk path, the key,
the tree-flag and the Merk options), clearing a nested forest, and
propagating a root hash upward.  Both the direct path and the batch
path are compiled against the same model, which is what lets their
costs be compared. -/
structure MerkApplyModel where
  elementDeleteCost : Bool → GPath → Bytes → Bool → DeleteOptions → StorageCost
  clearCost : Bool → GPath → StorageCost
  propagateCost : Bool → GPath → StorageCost

/-- The storage cost and post-state of a direct root-path delete,
following `delete_internal_on_transaction` /
`delete_internal_without_transaction` (`delete.rs`): read the element;
for a non-empty `Tree` (when allowed) clear the nested forest; delete
the element row with the tree-flag matching the element; propagate. -/
def directDeleteRootCost (m : MerkApplyModel) (tx : Bool)
    (st : GroveState) (key : Bytes) (options : DeleteOptions) :
    Except GroveError (StorageCost × GroveState) :=
  match getRaw st [] key with
  | .error e => .error e
  | .ok element =>
    match element with
    | .tree _ _ =>
      let subtreeMerkPath := [key]
      let isEmpty := subtreeIsEmpty st subtreeMerkPath
      if !options.allowDeletingNonEmptyTrees && !isEmpty then
        if options.deletingNonEmptyTreesReturnsError then
          .error .deletingNonEmptyTree
        else .ok (⟨0, 0, .noStorageRemoval⟩, st)
      else
        if !isEmpty then
          .ok ((m.clearCost tx subtreeMerkPath).add
                ((m.elementDeleteCost tx [] key true options).add
                  (m.propagateCost tx [])),
               stateRemove (stateClearPrefix st subtreeMerkPath) ([], key))
        else
          .ok ((m.elementDeleteCost tx [] key true options).add
                (m.propagateCost tx []),
               stateRemove st ([], key))
    | _ =>
      .ok ((m.elementDeleteCost tx [] key false options).add
            (m.propagateCost tx []),
           stateRemove st ([], key))

/-- Modelled from the spec (§4.H): `apply_batch` on a single deletion
op — validate the key exists, apply the per-Merk `Delete`/`DeleteTree`
with default options to the Merk at the op's path, and propagate; a
`DeleteTree` of a non-empty tree is refused (§4.E). -/
def applyBatchSingleDeleteCost (m : MerkApplyModel) (tx : Bool)
    (st : GroveState) (op : GroveDbOp) :
    Except GroveError (StorageCost × GroveState) :=
  match op.op with
  | .delete =>
    match getRaw st op.path op.key with
    | .error e => .error e
    | .ok _ =>
      .ok ((m.elementDeleteCost tx op.path op.key false
             defaultDeleteOptions).add (m.propagateCost tx op.path),
           stateRemove st (op.path, op.key))
  | .deleteTree =>
    match getRaw st op.path op.key with
    | .error e => .error e
    | .ok _ =>
      if subtreeIsEmpty st (op.path ++ [op.key]) then
        .ok ((m.elementDeleteCost tx op.path op.key true
               defaultDeleteOptions).add (m.propagateCost tx op.path),
             stateRemove st (op.path, op.key))
      else .error .deletingNonEmptyTree
  | _ => .error .notSupported

/-- A cost model with distinguishable outputs, for the parity witness. -/
def sampleMerkModel : MerkApplyModel :=
  { elementDeleteCost := fun _ p k isTree _ =>
      ⟨0, p.length, .basicStorageRemoval (k.length + if isTree then 100 else 0)⟩,
    clearCost := fun _ p => ⟨0, 0, .basicStorageRemoval p.length⟩,
    propagateCost := fun _ _ => ⟨3, 0, .noStorageRemoval⟩ }

/-- A single empty root `Tree` at key `[1]`. -/
def emptyTreeState : GroveState := [(([], [1]), .tree none none)]

/-! ## Theorems -/

theorem u64BeBytes_recompose (s : Nat) (h : s < 2 ^ 64) :
    u64FromBeBytes (u64BeBytes s) = s := by
  simp only [u64BeBytes, u64FromBeBytes, List.foldl]
  omega

theorem u64BeBytes_length (s : Nat) : (u64BeBytes s).length = 8 := rfl

theorem u64BeBytes_lt (s : Nat) : ∀ b ∈ u64BeBytes s, b < 256 := by
  simp only [u64BeBytes, List.mem_cons, List.not_mem_nil, or_false]
  intro b hb
  rcases hb with h | h | h | h | h | h | h | h <;> subst h <;> omega

/-- C4 counterexample: the source's `SummedMerk` accumulator is an
unsigned `u64`, not the signed `i64` the claim states.  On the encoding
`[1, 0xFF × 8]` the source decoder yields the sum `2^64 - 1`, while a
signed (`i64`) accumulator would be `-1`; the two readings disagree. -/
theorem treeFeatureType_sum_is_unsigned_counterexample :
    TreeFeatureType.decode (1 :: List.replicate 8 255) =
      .ok (.summedMerk (2 ^ 64 - 1)) ∧
    specFeatureDecode (1 :: List.replicate 8 255) = .ok (.summedMerk (-1)) ∧
    (TreeFeatureType.summedMerk (2 ^ 64 - 1)).toSpecCarrier ≠
      SpecTreeFeatureType.summedMerk (-1) := by
  refine ⟨rfl, rfl, ?_⟩
  simp only [TreeFeatureType.toSpecCarrier, ne_eq, SpecTreeFeatureType.summedMerk.injEq]
  decide

/-- C4 (amended): the feature type carried by every Merk node is either
`BasicMerk` or `SummedMerk` holding an **unsigned** 64-bit (`u64`) sum
accumulator, and its byte encoding serializes that unsigned accumulator
as tag byte `1` followed by its eight big-endian bytes (`BasicMerk`
serializes to the single tag byte `0`). -/
theorem treeFeatureType_unsigned_encoding (s : Nat) (h : s < 2 ^ 64) :
    (TreeFeatureType.summedMerk s).encode = 1 :: u64BeBytes s ∧
    u64FromBeBytes (u64BeBytes s) = s ∧
    (u64BeBytes s).length = 8 ∧
    (∀ b ∈ u64BeBytes s, b < 256) ∧
    TreeFeatureType.basicMerk.encode = [0] := by
  exact ⟨rfl, u64BeBytes_recompose s h, u64BeBytes_length s, u64BeBytes_lt s, rfl⟩

/-- Witness for `treeFeatureType_unsigned_encoding` at the concrete sum
`2^63 + 5`. -/
theorem treeFeatureType_unsigned_encoding_witness :
    (TreeFeatureType.summedMerk (2 ^ 63 + 5)).encode =
      1 :: u64BeBytes (2 ^ 63 + 5) ∧
    u64FromBeBytes (u64BeBytes (2 ^ 63 + 5)) = 2 ^ 63 + 5 ∧
    (u64BeBytes (2 ^ 63 + 5)).length = 8 ∧
    (∀ b ∈ u64BeBytes (2 ^ 63 + 5), b < 256) ∧
    TreeFeatureType.basicMerk.encode = [0] :=
  treeFeatureType_unsigned_encoding (2 ^ 63 + 5) (by norm_num)

/-- C10: `TreeFeatureType` serialization round-trips
(`decode (encode t) = Ok t`); the encoding is exactly one byte `[0]` for
`BasicMerk` and exactly nine bytes (tag `1` plus the 8-byte big-endian
sum) for `SummedMerk`, agreeing with `encoding_length`; and decoding any
input whose first byte is neither `0` nor `1` fails with
`UnexpectedByte`. -/
theorem treeFeatureType_codec_roundtrip :
    (∀ t : TreeFeatureType, t.wfB = true →
      TreeFeatureType.decode t.encode = .ok t) ∧
    TreeFeatureType.basicMerk.encode = [0] ∧
    (∀ s : Nat, (TreeFeatureType.summedMerk s).encode = 1 :: u64BeBytes s ∧
      (u64BeBytes s).length = 8) ∧
    (∀ t : TreeFeatureType, t.encode.length = t.encodingLength) ∧
    (∀ b rest, b ≠ 0 → b ≠ 1 →
      TreeFeatureType.decode (b :: rest) = .error (.unexpectedByte b)) := by
  refine ⟨?_, rfl, fun s => ⟨rfl, rfl⟩, ?_, ?_⟩
  · intro t hwf
    cases t with
    | basicMerk => rfl
    | summedMerk s =>
      have hs : s < 2 ^ 64 := by
        simpa [TreeFeatureType.wfB, decide_eq_true_eq] using hwf
      simp [TreeFeatureType.encode, TreeFeatureType.decode, u64BeBytes,
        u64BeBytes_recompose s hs]
      have := u64BeBytes_recompose s hs
      simpa [u64BeBytes] using this
  · intro t; cases t <;> rfl
  · intro b rest h0 h1
    simp [TreeFeatureType.decode, h0, h1]

/-- Witness for `treeFeatureType_codec_roundtrip`: the round-trip at the
concrete value `SummedMerk 300` and rejection of the tag byte `7`. -/
theorem treeFeatureType_codec_roundtrip_witness :
    TreeFeatureType.decode (TreeFeatureType.summedMerk 300).encode =
      .ok (.summedMerk 300) ∧
    TreeFeatureType.decode (7 :: [1, 2]) = .error (.unexpectedByte 7) :=
  ⟨treeFeatureType_codec_roundtrip.1 (.summedMerk 300) (by decide),
   treeFeatureType_codec_roundtrip.2.2.2.2 7 [1, 2] (by decide) (by decide)⟩

mutual

/-- The hasher writes of a subtree path are exactly its logical
segments, shallowest first. -/
theorem subtreePath_hashWrites_eq_toVec :
    ∀ p : SubtreePath, p.hashWrites = p.toVec
  | .mk base rel => by
    rw [SubtreePath.hashWrites, SubtreePath.toVec,
      subtreePathBase_hashWrites_eq_toVec base]
    cases rel <;> rfl

/-- Base-level version of `subtreePath_hashWrites_eq_toVec`. -/
theorem subtreePathBase_hashWrites_eq_toVec :
    ∀ b : SubtreePathBase, b.hashWrites = b.toVec
  | .slice _ => rfl
  | .derivedPath p => subtreePath_hashWrites_eq_toVec p

end

/-- C9: any two `SubtreePath` values representing the same logical
sequence of segments feed identical write sequences to the hasher — so
they hash identically — no matter whether they were built from a slice,
by `derive_parent`, or by chains of `derive_child` /
`derive_child_owned`. -/
theorem subtreePath_hash_stable (p q : SubtreePath) (h : p.toVec = q.toVec) :
    p.hashWrites = q.hashWrites := by
  rw [subtreePath_hashWrites_eq_toVec, subtreePath_hashWrites_eq_toVec, h]

/-- Witness for `subtreePath_hash_stable`: the slice-built path
`[[1],[2]]` hashes like the same path built by child derivations from
the empty path, and like the `derive_parent` of the slice-built path
`[[1],[2],[3]]`. -/
theorem subtreePath_hash_stable_witness :
    (SubtreePath.fromSlice [[1], [2]]).hashWrites =
      (((SubtreePath.fromSlice []).deriveChild [1]).deriveChildOwned
        [2]).hashWrites ∧
    (SubtreePath.fromSlice [[1], [2], [3]]).deriveParent =
      some (SubtreePath.fromSlice [[1], [2]], [3]) ∧
    (SubtreePath.fromSlice [[1], [2]]).hashWrites =
      (SubtreePath.fromSlice ([[1], [2], [3]].dropLast)).hashWrites :=
  ⟨subtreePath_hash_stable _ _ rfl, rfl, subtreePath_hash_stable _ _ rfl⟩

/-- C2: `verify_leaf` was claimed to reject every opcode stream whose
reconstructed tree hashes differently from `expected_hash`.  The code
builds the mismatch error but drops it, so a single full-KV push is
accepted against an arbitrary wrong expected hash; the abridged-node
check, by contrast, does reject a `Hash` push. -/
theorem verifyLeaf_ignores_hash_mismatch :
    verifyLeaf [Op.push (PNode.kv [1] [2])] Digest.null =
      .ok (ProofTree.node (PNode.kv [1] [2]) none none) ∧
    (ProofTree.node (PNode.kv [1] [2]) none none).hash ≠ Digest.null ∧
    verifyLeaf [Op.push (PNode.hash Digest.null)] Digest.null =
      .error (.oldChunkRestoring .leafChunksMustContainFullSubtree) := by
  refine ⟨rfl, by decide, rfl⟩

theorem pushedNodes_nil : pushedNodes [] = [] := rfl

theorem pushedNodes_cons_push (n : PNode) (ops : List Op) :
    pushedNodes (Op.push n :: ops) = n :: pushedNodes ops := rfl

theorem pushedNodes_cons_parent (ops : List Op) :
    pushedNodes (Op.parent :: ops) = pushedNodes ops := rfl

theorem pushedNodes_cons_child (ops : List Op) :
    pushedNodes (Op.child :: ops) = pushedNodes ops := rfl

theorem pushedNodes_append (a b : List Op) :
    pushedNodes (a ++ b) = pushedNodes a ++ pushedNodes b :=
  List.filterMap_append a b _

/-- With enough remaining depth, the trunk traversal pushes exactly the
whole tree in order as full `KVValueHashFeatureType` nodes. -/
theorem trunk_pushed_full :
    ∀ (t : MerkTree) (rem : Nat) (lm : Bool), t.height ≤ rem →
      pushedNodes (traverseForTrunk t rem lm) = t.inorderKV.map TreeKV.toKVVHFT
  | .node kv l r, rem, lm, h => by
    cases rem with
    | zero => cases l <;> cases r <;> simp [MerkTree.height] at h
    | succ d =>
      cases l with
      | none =>
        cases r with
        | none =>
          simp only [traverseForTrunk, MerkTree.inorderKV, pushedNodes_append,
            pushedNodes_cons_push, pushedNodes_nil, List.append_nil,
            List.nil_append, List.map_cons, List.map_nil]
          simp [TreeKV.toKVVHFT]
        | some rt =>
          have hr : rt.height ≤ d := by
            simp only [MerkTree.height] at h; omega
          simp only [traverseForTrunk, MerkTree.inorderKV, pushedNodes_append,
            pushedNodes_cons_push, pushedNodes_cons_child, pushedNodes_nil,
            List.append_nil, List.nil_append, List.map_append, List.map_cons,
            List.map_nil, trunk_pushed_full rt d false hr]
          simp [TreeKV.toKVVHFT]
      | some lt =>
        cases r with
        | none =>
          have hl : lt.height ≤ d := by
            simp only [MerkTree.height] at h; omega
          simp only [traverseForTrunk, MerkTree.inorderKV, pushedNodes_append,
            pushedNodes_cons_push, pushedNodes_cons_parent, pushedNodes_nil,
            List.append_nil, List.nil_append, List.map_append, List.map_cons,
            List.map_nil, trunk_pushed_full lt d lm hl]
          simp [TreeKV.toKVVHFT]
        | some rt =>
          have hl : lt.height ≤ d := by
            simp only [MerkTree.height] at h; omega
          have hr : rt.height ≤ d := by
            simp only [MerkTree.height] at h; omega
          simp only [traverseForTrunk, MerkTree.inorderKV, pushedNodes_append,
            pushedNodes_cons_push, pushedNodes_cons_parent,
            pushedNodes_cons_child, pushedNodes_nil, List.append_nil,
            List.nil_append, List.map_append, List.map_cons, List.map_nil,
            trunk_pushed_full lt d lm hl, trunk_pushed_full rt d false hr]
          simp [TreeKV.toKVVHFT]

/-- The full-KV pushes of a trunk traversal are exactly the nodes of the
top `rem` levels, in order. -/
theorem trunk_pushed_filter_kv :
    ∀ (t : MerkTree) (rem : Nat) (lm : Bool),
      (pushedNodes (traverseForTrunk t rem lm)).filter PNode.isKVVHFT =
        (t.inorderKVToDepth rem).map TreeKV.toKVVHFT
  | t, 0, lm => by
    cases t with
    | node kv l r =>
      cases lm <;>
        simp [traverseForTrunk, MerkTree.inorderKVToDepth, pushedNodes,
          PNode.isKVVHFT]
  | .node kv l r, d + 1, lm => by
    cases l with
    | none =>
      cases r with
      | none =>
        simp only [traverseForTrunk, MerkTree.inorderKVToDepth,
          pushedNodes_append, pushedNodes_cons_push, pushedNodes_nil,
          List.append_nil, List.nil_append, List.filter_append, List.map_cons,
          List.map_nil]
        simp [TreeKV.toKVVHFT, PNode.isKVVHFT, List.filter]
      | some rt =>
        simp only [traverseForTrunk, MerkTree.inorderKVToDepth,
          pushedNodes_append, pushedNodes_cons_push, pushedNodes_cons_child,
          pushedNodes_nil, List.append_nil, List.nil_append,
          List.filter_append, List.map_append, List.map_cons, List.map_nil,
          trunk_pushed_filter_kv rt d false]
        simp [TreeKV.toKVVHFT, PNode.isKVVHFT, List.filter]
    | some lt =>
      cases r with
      | none =>
        simp only [traverseForTrunk, MerkTree.inorderKVToDepth,
          pushedNodes_append, pushedNodes_cons_push, pushedNodes_cons_parent,
          pushedNodes_nil, List.append_nil, List.nil_append,
          List.filter_append, List.map_append, List.map_cons, List.map_nil,
          trunk_pushed_filter_kv lt d lm]
        simp [TreeKV.toKVVHFT, PNode.isKVVHFT, List.filter]
      | some rt =>
        simp only [traverseForTrunk, MerkTree.inorderKVToDepth,
          pushedNodes_append, pushedNodes_cons_push, pushedNodes_cons_parent,
          pushedNodes_cons_child, pushedNodes_nil, List.append_nil,
          List.nil_append, List.filter_append, List.map_append, List.map_cons,
          List.map_nil, trunk_pushed_filter_kv lt d lm,
          trunk_pushed_filter_kv rt d false]
        simp [TreeKV.toKVVHFT, PNode.isKVVHFT, List.filter]

/-- The `Hash` pushes of a trunk traversal are exactly the node hashes
of the out-of-trunk children, minus the leftmost one. -/
theorem trunk_pushed_filter_hash :
    ∀ (t : MerkTree) (rem : Nat) (lm : Bool),
      (pushedNodes (traverseForTrunk t rem lm)).filter PNode.isHashNode =
        (t.fringeHashes rem lm).map PNode.hash
  | t, 0, lm => by
    cases t with
    | node kv l r =>
      cases lm <;>
        simp [traverseForTrunk, MerkTree.fringeHashes, pushedNodes,
          PNode.isHashNode, List.filter]
  | .node kv l r, d + 1, lm => by
    cases l with
    | none =>
      cases r with
      | none =>
        simp only [traverseForTrunk, MerkTree.fringeHashes, pushedNodes_append,
          pushedNodes_cons_push, pushedNodes_nil, List.append_nil,
          List.nil_append, List.filter_append, List.map_nil]
        simp [PNode.isHashNode, List.filter]
      | some rt =>
        simp only [traverseForTrunk, MerkTree.fringeHashes, pushedNodes_append,
          pushedNodes_cons_push, pushedNodes_cons_child, pushedNodes_nil,
          List.append_nil, List.nil_append, List.filter_append,
          List.map_append, List.map_nil,
          trunk_pushed_filter_hash rt d false]
        simp [PNode.isHashNode, List.filter]
    | some lt =>
      cases r with
      | none =>
        simp only [traverseForTrunk, MerkTree.fringeHashes, pushedNodes_append,
          pushedNodes_cons_push, pushedNodes_cons_parent, pushedNodes_nil,
          List.append_nil, List.nil_append, List.filter_append,
          List.map_append, List.map_nil,
          trunk_pushed_filter_hash lt d lm]
        simp [PNode.isHashNode, List.filter]
      | some rt =>
        simp only [traverseForTrunk, MerkTree.fringeHashes, pushedNodes_append,
          pushedNodes_cons_push, pushedNodes_cons_parent,
          pushedNodes_cons_child, pushedNodes_nil, List.append_nil,
          List.nil_append, List.filter_append, List.map_append, List.map_nil,
          trunk_pushed_filter_hash lt d lm, trunk_pushed_filter_hash rt d false]
        simp [PNode.isHashNode, List.filter]

/-- Every node pushed by the trunk traversal is a full
`KVValueHashFeatureType` node or an abridged `Hash` node. -/
theorem trunk_pushed_kinds :
    ∀ (t : MerkTree) (rem : Nat) (lm : Bool),
      ∀ n ∈ pushedNodes (traverseForTrunk t rem lm),
        n.isKVVHFT = true ∨ n.isHashNode = true
  | t, 0, lm => by
    cases t with
    | node kv l r =>
      cases lm <;>
        simp [traverseForTrunk, pushedNodes, PNode.isHashNode]
  | .node kv l r, d + 1, lm => by
    intro n hn
    cases l with
    | none =>
      cases r with
      | none =>
        simp only [traverseForTrunk, pushedNodes_append, pushedNodes_cons_push,
          pushedNodes_nil, List.append_nil, List.nil_append, List.mem_append,
          List.mem_cons, List.not_mem_nil, or_false, false_or] at hn
        subst hn
        exact Or.inl rfl
      | some rt =>
        simp only [traverseForTrunk, pushedNodes_append, pushedNodes_cons_push,
          pushedNodes_cons_child, pushedNodes_nil, List.append_nil,
          List.nil_append, List.mem_append, List.mem_cons, List.not_mem_nil,
          or_false, false_or] at hn
        rcases hn with hn | hn
        · subst hn; exact Or.inl rfl
        · exact trunk_pushed_kinds rt d false n hn
    | some lt =>
      cases r with
      | none =>
        simp only [traverseForTrunk, pushedNodes_append, pushedNodes_cons_push,
          pushedNodes_cons_parent, pushedNodes_nil, List.append_nil,
          List.nil_append, List.mem_append, List.mem_cons, List.not_mem_nil,
          or_false, false_or] at hn
        rcases hn with hn | hn
        · exact trunk_pushed_kinds lt d lm n hn
        · subst hn; exact Or.inl rfl
      | some rt =>
        simp only [traverseForTrunk, pushedNodes_append, pushedNodes_cons_push,
          pushedNodes_cons_parent, pushedNodes_cons_child, pushedNodes_nil,
          List.append_nil, List.nil_append, List.mem_append, List.mem_cons,
          List.not_mem_nil, or_false, false_or] at hn
        rcases hn with (hn | hn) | hn
        · exact trunk_pushed_kinds lt d lm n hn
        · subst hn; exact Or.inl rfl
        · exact trunk_pushed_kinds rt d false n hn

/-- C5 (amended): `create_trunk_proof` returns `has_more = false` — and
then a proof covering the entire tree as a single leaf chunk of full
`KVValueHashFeatureType` nodes — exactly when the **measured** trunk
height (half the left-edge depth found by the height-proof walk, not
half of `tree.height()`) is below `MIN_TRUNK_HEIGHT = 5`; otherwise it
returns `has_more = true`, the proof being the height-proof ops followed
by a trunk traversal whose full-KV pushes are exactly the nodes down to
the measured trunk height, whose `Hash` pushes are exactly the
out-of-trunk children except the leftmost one (covered by the height
proof), and which pushes nothing else. -/
theorem createTrunkProof_characterization (t : MerkTree)
    (hh : t.height ≤ usizeMax) :
    ((createTrunkProof t).2 = false ↔
      measuredTrunkHeight t < minTrunkHeight) ∧
    (measuredTrunkHeight t < minTrunkHeight →
      pushedNodes (createTrunkProof t).1 = t.inorderKV.map TreeKV.toKVVHFT) ∧
    (minTrunkHeight ≤ measuredTrunkHeight t →
      (createTrunkProof t).1 =
        (traverseForHeightProof t 1).1 ++
          traverseForTrunk t (measuredTrunkHeight t) true ∧
      (createTrunkProof t).2 = true ∧
      (pushedNodes (traverseForTrunk t (measuredTrunkHeight t) true)).filter
          PNode.isKVVHFT =
        (t.inorderKVToDepth (measuredTrunkHeight t)).map TreeKV.toKVVHFT ∧
      (pushedNodes (traverseForTrunk t (measuredTrunkHeight t) true)).filter
          PNode.isHashNode =
        (t.fringeHashes (measuredTrunkHeight t) true).map PNode.hash ∧
      ∀ n ∈ pushedNodes (traverseForTrunk t (measuredTrunkHeight t) true),
        n.isKVVHFT = true ∨ n.isHashNode = true) := by
  by_cases hc : measuredTrunkHeight t < minTrunkHeight
  · have hc' : (traverseForHeightProof t 1).2 < minTrunkHeight := hc
    refine ⟨?_, fun _ => ?_, fun hge => absurd hc (by omega)⟩
    · simp [createTrunkProof, hc']
      exact hc
    · simp only [createTrunkProof, if_pos hc']
      exact trunk_pushed_full t usizeMax true hh
  · have hc' : ¬ (traverseForHeightProof t 1).2 < minTrunkHeight := hc
    refine ⟨?_, fun hlt => absurd hlt hc, fun _ => ?_⟩
    · simp [createTrunkProof, hc']
      omega
    · refine ⟨?_, ?_, trunk_pushed_filter_kv t _ true,
        trunk_pushed_filter_hash t _ true, trunk_pushed_kinds t _ true⟩
      · simp only [createTrunkProof, if_neg hc']
        rfl
      · simp [createTrunkProof, hc']

/-- Witness for `createTrunkProof_characterization` at a single-node
tree: measured trunk height `0 < 5`, so the whole tree is the proof and
`has_more = false`. -/
theorem createTrunkProof_characterization_witness :
    ((createTrunkProof (MerkTree.node ⟨[7], [8], Digest.null,
        .basicMerk⟩ none none)).2 = false ↔
      measuredTrunkHeight (MerkTree.node ⟨[7], [8], Digest.null,
        .basicMerk⟩ none none) < minTrunkHeight) ∧
    pushedNodes (createTrunkProof (MerkTree.node ⟨[7], [8], Digest.null,
        .basicMerk⟩ none none)).1 =
      (MerkTree.node ⟨[7], [8], Digest.null,
        .basicMerk⟩ none none).inorderKV.map TreeKV.toKVVHFT :=
  ⟨(createTrunkProof_characterization _ (by decide)).1,
   (createTrunkProof_characterization _ (by decide)).2.1 (by decide)⟩

/-- C5 counterexample: the claim measures the trunk height as
`tree.height() / 2`, but the code halves the left-edge depth found by
the height-proof walk.  On a right spine of ten nodes `tree.height()`
is `10`, so the claim requires `has_more = true`, yet the code measures
trunk height `1 / 2 = 0 < 5` and returns the whole tree as a leaf chunk
with `has_more = false`. -/
theorem createTrunkProof_height_counterexample :
    (rightSpine 9).height = 10 ∧
    ¬ ((rightSpine 9).height / 2 < minTrunkHeight) ∧
    measuredTrunkHeight (rightSpine 9) = 0 ∧
    (createTrunkProof (rightSpine 9)).2 = false :=
  ⟨rfl, by decide, rfl, rfl⟩

theorem refIter_shift (st : GroveState) (p p' : GPath)
    (h : refStep st p = some p') :
    ∀ i, refIter st p' i = refIter st p (i + 1) := by
  intro i
  induction i with
  | zero => simp [refIter, h]
  | succ i ih => simp only [refIter, ih]

theorem refStep_inversion (st : GroveState) (p p' : GPath)
    (h : refStep st p = some p') :
    ∃ pathSlice key rp mh fl, splitLastSeg p = some (pathSlice, key) ∧
      getRaw st pathSlice key = .ok (.reference rp mh fl) ∧
      pathFromReferenceQualified rp p = .ok p' := by
  cases hsp : splitLastSeg p with
  | none => unfold refStep at h; rw [hsp] at h; simp at h
  | some pr =>
    obtain ⟨pathSlice, key⟩ := pr
    unfold refStep at h
    rw [hsp] at h
    dsimp only at h
    cases hg : getRaw st pathSlice key with
    | error e => rw [hg] at h; simp at h
    | ok el =>
      rw [hg] at h
      cases el with
      | reference rp mh fl =>
        dsimp only at h
        cases hq : pathFromReferenceQualified rp p with
        | error e => rw [hq] at h; simp at h
        | ok q =>
          rw [hq] at h
          simp only [Option.some.injEq] at h
          exact ⟨pathSlice, key, rp, mh, fl, rfl, hg, by rw [hq, h]⟩
      | item v fl => simp at h
      | tree rk fl => simp at h
      | sumItem s fl => simp at h
      | sumTree rk s fl => simp at h

/-- If the first `h` hops from `p` all resolve to references and visit
pairwise-distinct, unvisited paths, the loop exhausts its budget. -/
theorem followLoop_limit (st : GroveState) :
    ∀ (h : Nat) (p : GPath) (visited : List GPath),
      (∀ i, i < h → (refIter st p (i + 1)).isSome) →
      (∀ i j, i < j → j < h → refIter st p i ≠ refIter st p j) →
      (∀ i, i < h → ∀ q, refIter st p i = some q → q ∉ visited) →
      followReferenceLoop st p h visited = .error .referenceLimit := by
  intro h
  induction h with
  | zero => intro p visited _ _ _; rfl
  | succ h ih =>
    intro p visited hdef hdist hvis
    have hpnv : p ∉ visited := hvis 0 (Nat.succ_pos h) p rfl
    obtain ⟨p', hp'⟩ := Option.isSome_iff_exists.mp (hdef 0 (Nat.succ_pos h))
    have hstep : refStep st p = some p' := by simpa [refIter] using hp'
    obtain ⟨pathSlice, key, rp, mh, fl, hsplit, hget, hq⟩ :=
      refStep_inversion st p p' hstep
    have hshift := refIter_shift st p p' hstep
    simp only [followReferenceLoop, hsplit, hget, hq, hpnv, if_false,
      ite_false]
    exact ih p' (p :: visited)
      (fun i hi => by rw [hshift]; exact hdef (i + 1) (Nat.succ_lt_succ hi))
      (fun i j hij hj => by
        rw [hshift, hshift]
        exact hdist (i + 1) (j + 1) (Nat.succ_lt_succ hij)
          (Nat.succ_lt_succ hj))
      (fun i hi q hqi => by
        rw [hshift] at hqi
        intro hmem
        rcases List.mem_cons.mp hmem with hqp | hqv
        · subst hqp
          exact hdist 0 (i + 1) (Nat.succ_pos i) (Nat.succ_lt_succ hi)
            (by rw [hqi]; rfl)
        · exact hvis (i + 1) (Nat.succ_lt_succ hi) q hqi hqv)

/-- If after `j` clean reference hops the `j`-th path is already visited
or repeats an earlier hop, the loop reports a cycle (provided `j` hops
fit the remaining budget). -/
theorem followLoop_cyclic (st : GroveState) :
    ∀ (j h : Nat) (p : GPath) (visited : List GPath), j < h →
      (∀ i, i < j → (refIter st p (i + 1)).isSome) →
      (∀ i i', i < i' → i' < j → refIter st p i ≠ refIter st p i') →
      (∀ i, i < j → ∀ q, refIter st p i = some q → q ∉ visited) →
      (∀ q, refIter st p j = some q →
        q ∈ visited ∨ ∃ i, i < j ∧ refIter st p i = some q) →
      followReferenceLoop st p h visited = .error .cyclicReference := by
  intro j
  induction j with
  | zero =>
    intro h p visited hjh _ _ _ hrep
    rcases hrep p rfl with hpv | ⟨i, hi, _⟩
    · cases h with
      | zero => omega
      | succ h' => simp only [followReferenceLoop, hpv, if_true, ite_true]
    · omega
  | succ j ih =>
    intro h p visited hjh hdef hdist hvis hrep
    cases h with
    | zero => omega
    | succ h' =>
      have hpnv : p ∉ visited := hvis 0 (Nat.succ_pos j) p rfl
      obtain ⟨p', hp'⟩ := Option.isSome_iff_exists.mp (hdef 0 (Nat.succ_pos j))
      have hstep : refStep st p = some p' := by simpa [refIter] using hp'
      obtain ⟨pathSlice, key, rp, mh, fl, hsplit, hget, hq⟩ :=
        refStep_inversion st p p' hstep
      have hshift := refIter_shift st p p' hstep
      simp only [followReferenceLoop, hsplit, hget, hq, hpnv, if_false,
        ite_false]
      refine ih h' p' (p :: visited) (by omega)
        (fun i hi => by rw [hshift]; exact hdef (i + 1) (Nat.succ_lt_succ hi))
        (fun i i' hii hi' => by
          rw [hshift, hshift]
          exact hdist (i + 1) (i' + 1) (Nat.succ_lt_succ hii)
            (Nat.succ_lt_succ hi'))
        (fun i hi q hqi => by
          rw [hshift] at hqi
          intro hmem
          rcases List.mem_cons.mp hmem with hqp | hqv
          · subst hqp
            exact hdist 0 (i + 1) (Nat.succ_pos i) (Nat.succ_lt_succ hi)
              (by rw [hqi]; rfl)
          · exact hvis (i + 1) (Nat.succ_lt_succ hi) q hqi hqv)
        (fun q hqj => ?_)
      rw [hshift] at hqj
      rcases hrep q hqj with hqv | ⟨i, hi, hqi⟩
      · exact Or.inl (List.mem_cons_of_mem p hqv)
      · cases i with
        | zero =>
          refine Or.inl ?_
          have hpq : p = q := by simpa [refIter] using hqi
          rw [← hpq]
          exact List.mem_cons_self p _
        | succ i' =>
          exact Or.inr ⟨i', by omega, by rw [hshift]; exact hqi⟩

/-- C3: reference resolution follows at most `MAX_REFERENCE_HOPS = 10`
indirections — ten clean, pairwise-distinct reference hops exhaust the
budget with `ReferenceLimit` — and a resolved path repeating an earlier
one within the budget yields `CyclicReference`; in particular, a
`Reference` at `[A, B]` targeting `[A, B]` itself makes
`get([A], B)` return `CyclicReference`. -/
theorem followReference_hop_and_cycle_limits :
    maxReferenceHops = 10 ∧
    groveGet cycleState [[0]] [1] = .error .cyclicReference ∧
    (∀ (st : GroveState) (p : GPath),
      (∀ i, i < 10 → (refIter st p (i + 1)).isSome) →
      (∀ j, j < 10 → ∀ i, i < j → refIter st p i ≠ refIter st p j) →
      followReference st p = .error .referenceLimit) ∧
    (∀ (st : GroveState) (p : GPath) (j : Nat), j < 10 →
      (∀ i, i < j → (refIter st p (i + 1)).isSome) →
      (∀ i', i' < j → ∀ i, i < i' → refIter st p i ≠ refIter st p i') →
      (∀ q, refIter st p j = some q → ∃ i, i < j ∧ refIter st p i = some q) →
      followReference st p = .error .cyclicReference) := by
  refine ⟨rfl, rfl, ?_, ?_⟩
  · intro st p hdef hdist
    exact followLoop_limit st 10 p [] hdef
      (fun i j hij hj => hdist j hj i hij) (by simp)
  · intro st p j hj hdef hdist hrep
    exact followLoop_cyclic st j 10 p [] hj hdef
      (fun i i' hii hi' => hdist i' hi' i hii) (by simp)
      (fun q hq => Or.inr (hrep q hq))

/-- Witness for `followReference_hop_and_cycle_limits`: a ten-deep
reference chain exhausts the hop budget, and a three-cycle is reported
as cyclic. -/
theorem followReference_hop_and_cycle_limits_witness :
    followReference chainState [[0]] = .error .referenceLimit ∧
    followReference cycle3State [[0]] = .error .cyclicReference :=
  ⟨followReference_hop_and_cycle_limits.2.2.1 chainState [[0]]
      (by decide) (by decide),
   followReference_hop_and_cycle_limits.2.2.2 cycle3State [[0]] 3
      (by decide) (by decide) (by decide)
      (fun q hq => ⟨0, by decide, by rw [← hq]; rfl⟩)⟩

/-- C6: deleting a `Tree` element whose nested Merk is non-empty while
`allow_deleting_non_empty_trees` is false removes nothing, in both the
transactional and the non-transactional variant: it is the
`DeletingNonEmptyTree` error when
`deleting_non_empty_trees_returns_error` is set, and `Ok(false)` with
the state unchanged otherwise. -/
theorem deleteNonEmptyTree_guard (st : GroveState) (path : GPath)
    (key : Bytes) (options : DeleteOptions) (rk fl : Option Bytes)
    (hget : getRaw st path key = .ok (.tree rk fl))
    (hne : subtreeIsEmpty st (path ++ [key]) = false)
    (hallow : options.allowDeletingNonEmptyTrees = false) :
    deleteInternalOnTransaction st path key options =
      (if options.deletingNonEmptyTreesReturnsError then
        .error .deletingNonEmptyTree else .ok (false, st)) ∧
    deleteInternalWithoutTransaction st path key options =
      (if options.deletingNonEmptyTreesReturnsError then
        .error .deletingNonEmptyTree else .ok (false, st)) := by
  constructor
  · simp [deleteInternalOnTransaction, hget, hne, hallow]
  · simp [deleteInternalWithoutTransaction, hget, hne, hallow]

/-- Witness for `deleteNonEmptyTree_guard`: with default options the
non-empty tree delete errors; with the silent options it returns
`(false, unchanged state)`. -/
theorem deleteNonEmptyTree_guard_witness :
    deleteInternalOnTransaction nonEmptyTreeState [] [1]
      defaultDeleteOptions = .error .deletingNonEmptyTree ∧
    deleteInternalWithoutTransaction nonEmptyTreeState [] [1]
      ⟨false, false, true⟩ = .ok (false, nonEmptyTreeState) := by
  constructor
  · have h := (deleteNonEmptyTree_guard nonEmptyTreeState [] [1]
      defaultDeleteOptions none none rfl rfl rfl).1
    simpa using h
  · have h := (deleteNonEmptyTree_guard nonEmptyTreeState [] [1]
      ⟨false, false, true⟩ none none rfl rfl rfl).2
    simpa using h

/-- C8 counterexample: the direct `GroveDb::delete` accepts the empty
(root) path and removes the element — with and without a transaction it
returns `Ok` and the emptied state, not the `InvalidPath` error the
claim requires of every empty-path delete. -/
theorem deleteEmptyPath_counterexample :
    groveDelete rootItemState [] [1] none true = .ok [] ∧
    groveDelete rootItemState [] [1] none false = .ok [] :=
  ⟨rfl, rfl⟩

/-- C8 (amended): only the batch-building path rejects a forest-root
delete: `delete_operation_for_delete_internal` (used by batch planning
and `delete_up_tree_while_empty`) fails with `InvalidPath` for every
key when the path is empty, before looking anything up; the direct
`delete` accepts the empty path. -/
theorem deleteOperation_empty_path_invalid (st : GroveState) (key : Bytes)
    (options : DeleteOptions) (validate : Bool)
    (currentBatchOperations : List GroveDbOp) :
    deleteOperationForDeleteInternal st [] key options validate
      currentBatchOperations = .error .invalidPath := rfl

/-- C7: deleting the root-level `Item(b"cat")` at `b"key1"` inside a
transaction costs exactly
`{seek_count: 6, storage_loaded_bytes: 152, hash_node_calls: 2,
removed_bytes: Basic(147)}` with nothing added or replaced; the 147
decomposes per the byte contract as key `37` + value `71` + parent hook
`39`. -/
theorem s2_item_delete_cost_exact :
    nodeKeyStorageSize 4 = 37 ∧
    itemValueStorageSize 3 none = 71 ∧
    parentHookSize 4 = 39 ∧
    itemDeleteRemovedBytes 4 3 none = 147 ∧
    s2ItemDeleteCost =
      { seekCount := 6, storageLoadedBytes := 152,
        storageCost :=
          { addedBytes := 0, replacedBytes := 0,
            removedBytes := .basicStorageRemoval 147 },
        hashNodeCalls := 2 } :=
  ⟨rfl, rfl, rfl, rfl, rfl⟩

/-- C1: for every per-Merk cost model, transaction flavor and
pre-state, a single-op deletion batch and the equivalent direct delete
at the root path produce identical results — the same storage cost
(added, replaced and removed bytes) and the same post-state, hence the
same root hash (the root hash is a function of the `(path, key,
element)` triples, spec invariant 4) — for an `Item` (with or without
flags, which live inside the element) and for an empty `Tree`
likewise. -/
theorem batch_single_delete_parity (m : MerkApplyModel) (tx : Bool)
    (st : GroveState) (key : Bytes) :
    (∀ v fl, getRaw st [] key = .ok (.item v fl) →
      applyBatchSingleDeleteCost m tx st (GroveDbOp.deleteRunOp [] key) =
        directDeleteRootCost m tx st key defaultDeleteOptions) ∧
    (∀ rk fl, getRaw st [] key = .ok (.tree rk fl) →
      subtreeIsEmpty st [key] = true →
      applyBatchSingleDeleteCost m tx st
          (GroveDbOp.deleteTreeRunOp [] key) =
        directDeleteRootCost m tx st key defaultDeleteOptions) := by
  constructor
  · intro v fl hget
    simp [applyBatchSingleDeleteCost, directDeleteRootCost,
      GroveDbOp.deleteRunOp, hget]
  · intro rk fl hget hempty
    simp [applyBatchSingleDeleteCost, directDeleteRootCost,
      GroveDbOp.deleteTreeRunOp, hget, hempty, defaultDeleteOptions]

/-- Witness for `batch_single_delete_parity`: the item state and the
empty-tree state, under the sample cost model, with and without a
transaction. -/
theorem batch_single_delete_parity_witness :
    applyBatchSingleDeleteCost sampleMerkModel true rootItemState
        (GroveDbOp.deleteRunOp [] [1]) =
      directDeleteRootCost sampleMerkModel true rootItemState [1]
        defaultDeleteOptions ∧
    applyBatchSingleDeleteCost sampleMerkModel false emptyTreeState
        (GroveDbOp.deleteTreeRunOp [] [1]) =
      directDeleteRootCost sampleMerkModel false emptyTreeState [1]
        defaultDeleteOptions :=
  ⟨(batch_single_delete_parity sampleMerkModel true rootItemState [1]).1
      [2] none rfl,
   (batch_single_delete_parity sampleMerkModel false emptyTreeState [1]).2
      none none rfl rfl⟩

end GroveDB
